import Mathlib

/-!
Verification development for the iss4e toolchain's streaming pipeline.

The first section models `iss4e/util/async_lookahead_iterator.py`.
`AsyncLookaheadIterator` wraps an iterator: it keeps a deque `_pending` of
futures submitted to an executor, each future running `__get_next(nr)`,
which asserts `nr == _run_count`, increments `_run_count` and pulls the
next element of the wrapped iterator.  The executor is modelled as running
submitted tasks in submission order, so the task with sequence number `k`
receives the `k`-th pull of the source.  The source itself is modelled as
a finite list of items followed by a terminal outcome: clean exhaustion
(`StopIteration`) or an exception `e`.
-/

variable {α ε : Type}

/-- Outcome of one pull of the wrapped iterator: an item, `StopIteration`,
or some other exception. -/
inductive PullResult (α ε : Type) where
  | ok (a : α)
  | stop
  | err (e : ε)

deriving instance DecidableEq for PullResult

/-- The wrapped iterable: it yields `items` in order and then either raises
`StopIteration` (`term = none`) or raises the exception `e`
(`term = some e`); after that it keeps raising `StopIteration`. -/
structure Source (α ε : Type) where
  items : List α
  term : Option ε

deriving instance DecidableEq for Source

/-- Result of the `k`-th (0-indexed) call of `__next__` on the wrapped
iterator. -/
def Source.pull (s : Source α ε) (k : Nat) : PullResult α ε :=
  if h : k < s.items.length then .ok (s.items.get ⟨k, h⟩)
  else if k = s.items.length then
    match s.term with
    | none => .stop
    | some e => .err e
  else .stop

/-- State of one `AsyncLookaheadIterator` instance.  `pending` is the deque
of sequence numbers of submitted-but-unconsumed tasks (`none` models
`self._pending = None` after exhaustion); `submit_count` is
`self._submit_count`; `log` is a ghost history of all sequence numbers ever
submitted, in submission order. -/
structure AsyncLookaheadIterator where
  pending : Option (List Nat)
  submit_count : Nat
  log : List Nat

deriving instance DecidableEq for AsyncLookaheadIterator

/-- `__fill_queue`: while `_pending` is not `None` and holds fewer than
`N = parallelism` tasks, submit `__get_next(_submit_count)` and increment
`_submit_count`. -/
def AsyncLookaheadIterator.fill_queue (N : Nat) (st : AsyncLookaheadIterator) :
    AsyncLookaheadIterator :=
  match st.pending with
  | none => st
  | some q =>
    { pending := some (q ++ List.range' st.submit_count (N - q.length)),
      submit_count := st.submit_count + (N - q.length),
      log := st.log ++ List.range' st.submit_count (N - q.length) }

/-- Outcome of one `__next__` call: an item, `StopIteration`, a propagated
task exception, the `AttributeError` from `None.popleft()` after
exhaustion, or the `IndexError` from `popleft()` on an empty deque (only
reachable with `parallelism = 0`). -/
inductive NextResult (α ε : Type) where
  | ok (a : α)
  | stop
  | err (e : ε)
  | attrError
  | popEmpty

deriving instance DecidableEq for NextResult

/-- `__init__`: empty deque, counters at 0; with `warm_start` the queue is
pre-filled at construction. -/
def AsyncLookaheadIterator.init (N : Nat) (warm_start : Bool) :
    AsyncLookaheadIterator :=
  let st : AsyncLookaheadIterator := ⟨some [], 0, []⟩
  if warm_start then fill_queue N st else st

/-- `__next__`: fill the queue, pop the oldest pending task and await its
result.  On success refill the queue and return the item; on
`StopIteration` set `_pending = None` and re-raise; on any other exception
propagate it with the failed task already removed and no refill
(the `except StopIteration` clause does not catch it). -/
def AsyncLookaheadIterator.next (s : Source α ε) (N : Nat)
    (st : AsyncLookaheadIterator) : NextResult α ε × AsyncLookaheadIterator :=
  let st1 := fill_queue N st
  match st1.pending with
  | none => (.attrError, st1)
  | some [] => (.popEmpty, st1)
  | some (t :: rest) =>
    match s.pull t with
    | .ok a => (.ok a, fill_queue N { st1 with pending := some rest })
    | .stop => (.stop, { st1 with pending := none })
    | .err e => (.err e, { st1 with pending := some rest })

/-- Drive the iterator: call `next` until it stops yielding items (or fuel
runs out, reported as `none`), collecting the yielded items in order. -/
def collect (s : Source α ε) (N : Nat) :
    Nat → AsyncLookaheadIterator → List α × Option (NextResult α ε)
  | 0, _ => ([], none)
  | fuel + 1, st =>
    match AsyncLookaheadIterator.next s N st with
    | (.ok a, st') =>
      let r := collect s N fuel st'
      (a :: r.1, r.2)
    | (r, _) => ([], some r)

/-- The sequence number of the task a `next` call issued from state `st`
would await: the head of the filled queue. -/
def nextPopped (N : Nat) (st : AsyncLookaheadIterator) : Option Nat :=
  match (AsyncLookaheadIterator.fill_queue N st).pending with
  | none => none
  | some q => q.head?

/-- `__get_next(nr)` as run by the executor: assert `nr == _run_count`
(`none` models the assertion failing, i.e. an `OrderingViolation`),
increment `_run_count`, and pull the source. -/
def runTask (s : Source α ε) (run_count nr : Nat) :
    Option (Nat × PullResult α ε) :=
  if nr = run_count then some (run_count + 1, s.pull nr) else none

/-- The in-order executor: run the listed tasks in submission order,
threading `_run_count`; `none` as soon as any task's assertion fails. -/
def runInOrder (s : Source α ε) : List Nat → Nat → Option Nat
  | [], rc => some rc
  | nr :: rest, rc =>
    match runTask s rc nr with
    | none => none
    | some (rc', _) => runInOrder s rest rc'

/-- States of an `AsyncLookaheadIterator` observable between operations:
the state right after construction and the state after each `next` call. -/
inductive Reachable (s : Source α ε) (N : Nat) (warm_start : Bool) :
    AsyncLookaheadIterator → Prop where
  | start : Reachable s N warm_start (AsyncLookaheadIterator.init N warm_start)
  | step {st} : Reachable s N warm_start st →
      Reachable s N warm_start (AsyncLookaheadIterator.next s N st).2

/-- Number of tasks currently outstanding (pending in the deque). -/
def pendingLen (st : AsyncLookaheadIterator) : Nat :=
  match st.pending with
  | none => 0
  | some q => q.length

/-- Iterating the wrapped source directly and synchronously yields exactly
its items, in order.  (Spec-side description of the unwrapped traversal,
used as the reference sequence for the ordering-invariance claims.) -/
def syncIterate (s : Source α ε) : List α :=
  s.items

/-- The steady-state shape of an iterator that has successfully yielded `k`
items: the pending deque holds exactly the consecutive task numbers from
`k` up to `submit_count - 1`, and at most `N` of them. -/
def QueueInv (N k : Nat) (st : AsyncLookaheadIterator) : Prop :=
  st.pending = some (List.range' k (st.submit_count - k)) ∧
    k ≤ st.submit_count ∧ st.submit_count ≤ k + N



/-- `StopIteration` or the source's exception, as the final outcome a full
iteration run reports. -/
def Source.terminalNext (s : Source α ε) : NextResult α ε :=
  match s.term with
  | none => .stop
  | some e => .err e

/-- Ghost invariant: the submission history is exactly `0, 1, 2, ...` up to
`submit_count`. -/
def LogInv (st : AsyncLookaheadIterator) : Prop :=
  st.log = List.range st.submit_count

/-!
The second section models `iss4e/db/influxdb.py`: `join_selectors`,
`QueryStreamer`, `InfluxDBStreamingClient.list_series`,
`stream_measurement` and `stream_query`.
-/

/-- A result row (an InfluxDB point): a mapping from field name to value,
modelled as an association list.  Python truthiness of a row is
`row ≠ {}`, i.e. the list is nonempty. -/
def Row : Type := List (String × String)

deriving instance DecidableEq for Row

/-- Python `str.join`: `pyJoin sep [a, b, c] = a ++ sep ++ b ++ sep ++ c`,
and `""` on the empty list. -/
def pyJoin (sep : String) : List String → String
  | [] => ""
  | [s] => s
  | s :: rest => s ++ sep ++ pyJoin sep rest

/-- `join_selectors`: wrap each truthy (nonempty) selector in parentheses,
return the single element if exactly one remains, else join the wrapped
selectors with `" AND "`. -/
def join_selectors (selectors : List String) : String :=
  let ss := (selectors.filter (fun w => !(w = ""))).map (fun w => "(" ++ w ++ ")")
  if ss.length = 1 then ss.headD "" else pyJoin " AND " ss

/-- The peek-based emptiness test of `QueryStreamer.__next__`:
`not points.peek(None)` is true when the page has no rows (`peek` returns
`None`) or when its first row is falsy (an empty mapping). -/
def pageEmptyByPeek (rows : List Row) : Bool :=
  match rows with
  | [] => true
  | r :: _ => r.isEmpty

/-- State of a `QueryStreamer`: `batch_size` is the constant limit
(`itertools.repeat(batch_size)`), `offset` is the next value of the
`itertools.count(0, batch_size)` iterator. -/
structure QueryStreamer where
  batch_size : Nat
  offset : Nat

deriving instance DecidableEq for QueryStreamer

/-- `QueryStreamer.__next__`: format the query with the current `offset`
and `limit` (the counters advance regardless of the outcome), run it, peek
into the result; if empty raise `StopIteration`, else return the page.
The query is modelled as the `(offset, limit)` pair its template is
formatted with, and the query-execution capability as a function
`db : offset → limit → rows`. -/
def QueryStreamer.next (db : Nat → Nat → List Row) (s : QueryStreamer) :
    (Nat × Nat) × Option (List Row) × QueryStreamer :=
  let query := (s.offset, s.batch_size)
  let result := db s.offset s.batch_size
  let s' : QueryStreamer := ⟨s.batch_size, s.offset + s.batch_size⟩
  if pageEmptyByPeek result then (query, none, s') else (query, some result, s')

/-- Drive a `QueryStreamer` to exhaustion (bounded by `fuel`): the list of
`(query, page)` pairs it yields, and the query of the terminating
(`StopIteration`) step, or `none` if the fuel ran out first. -/
def qsRun (db : Nat → Nat → List Row) :
    Nat → QueryStreamer → List ((Nat × Nat) × List Row) × Option (Nat × Nat)
  | 0, _ => ([], none)
  | fuel + 1, s =>
    match QueryStreamer.next db s with
    | (q, none, _) => ([], some q)
    | (q, some rows, s') =>
      let r := qsRun db fuel s'
      ((q, rows) :: r.1, r.2)

/-- An underlying data source that is a sequence of pages: the query at
offset `K * bs` is answered with the `K`-th page, and with the empty page
past the end. -/
def pagedDb (pages : List (List Row)) (bs : Nat) (offset _limit : Nat) :
    List Row :=
  pages.getD (offset / bs) []

/-- An underlying data source of individual rows with SQL `LIMIT`/`OFFSET`
semantics. -/
def limitOffsetDb (rows : List Row) (offset limit : Nat) : List Row :=
  (rows.drop offset).take limit

/-- `InfluxDBStreamingClient.stream_query` without an async executor:
build a `QueryStreamer` from offset 0; if `batched` return the stream of
pages, else flatten it with `itertools.chain.from_iterable`. -/
def stream_query (db : Nat → Nat → List Row) (bs fuel : Nat)
    (batched : Bool) : List (List Row) ⊕ List Row :=
  let pages := ((qsRun db fuel ⟨bs, 0⟩).1).map (fun x => x.2)
  if batched then Sum.inl pages else Sum.inr pages.flatten

/-- `series_tag_to_selector`: split `"k=v"` at `"="` and build the
per-tag equality predicate `k::tag='v'`.  (A key that does not split into
exactly two parts raises `ValueError` in Python; that case is modelled as
the empty selector and is never exercised by the claims.) -/
def series_tag_to_selector (p : String) : String :=
  match p.splitOn "=" with
  | [k, v] => k ++ "::tag='" ++ v ++ "'"
  | _ => ""

/-- `InfluxDBStreamingClient.list_series`: run the discovery query
(`SHOW SERIES FROM measurement`, modelled as the capability `dbSeries`
mapping the measurement to its raw series keys), split each key at `","`
dropping the measurement name, and pair each tag list with the conjunction
of its per-tag selectors.  The method reads no mutable client state and
writes none, so it is a pure function of the discovery result. -/
def list_series (dbSeries : String → List String) (measurement : String) :
    List (List String × String) :=
  ((dbSeries measurement).map (fun key => (key.splitOn ",").drop 1)).map
    (fun serie => (serie, join_selectors (serie.map series_tag_to_selector)))

/-- `InfluxDBStreamingClient.stream_measurement`: one entry per discovered
series, carrying the tag list, the per-series selector, and the WHERE
clause passed on to `stream_params` — the caller filter joined with the
series selector by `join_selectors`. -/
def stream_measurement (dbSeries : String → List String)
    (measurement where_ : String) : List (List String × String × String) :=
  (list_series dbSeries measurement).map
    (fun x => (x.1, x.2, join_selectors [where_, x.2]))




/-- The output the pagination claim predicts: the `K`-th yielded element
(counting from `k`) is the `K`-th page, paired with the one query
`(offset = K * bs, limit = bs)` that produced it. -/
def expectedPages (bs : Nat) : Nat → List (List Row) → List ((Nat × Nat) × List Row)
  | _, [] => []
  | k, p :: rest => ((k * bs, bs), p) :: expectedPages bs (k + 1) rest

/-!
Helper lemmas: the queue invariant, how `fill_queue` and `next` transform
invariant states, and the behaviour of a full `collect` run.
-/

/-- The five-row data set `[A, B, C, D, E]` of the batching scenario, each
row a one-field point. -/
def rowsABCDE : List Row :=
  [[("v", "A")], [("v", "B")], [("v", "C")], [("v", "D")], [("v", "E")]]

theorem fill_queue_of_inv {N k : Nat} {st : AsyncLookaheadIterator}
    (h : QueueInv N k st) :
    (AsyncLookaheadIterator.fill_queue N st).pending = some (List.range' k N) ∧
      (AsyncLookaheadIterator.fill_queue N st).submit_count = k + N := by
  obtain ⟨hp, hk, hN⟩ := h
  have hm : st.submit_count - k ≤ N := by omega
  have hsc : st.submit_count = k + (st.submit_count - k) := by omega
  simp only [AsyncLookaheadIterator.fill_queue, hp, List.length_range']
  have happ := List.range'_append k (st.submit_count - k)
    (N - (st.submit_count - k)) 1
  simp only [one_mul] at happ
  rw [← hsc] at happ
  constructor
  · rw [happ]
    congr 2
    omega
  · omega

theorem inv_fill_queue {N k : Nat} {st : AsyncLookaheadIterator}
    (h : QueueInv N k st) :
    QueueInv N k (AsyncLookaheadIterator.fill_queue N st) := by
  obtain ⟨h1, h2⟩ := fill_queue_of_inv h
  refine ⟨?_, ?_, ?_⟩
  · rw [h1, h2]
    congr 2
    omega
  · omega
  · omega

theorem range'_cons_of_pos {k N : Nat} (hN : 1 ≤ N) :
    List.range' k N = k :: List.range' (k + 1) (N - 1) := by
  obtain ⟨j, rfl⟩ : ∃ j, N = j + 1 := ⟨N - 1, by omega⟩
  simp [List.range'_succ]

theorem next_ok_of_inv {s : Source α ε} {N k : Nat}
    {st : AsyncLookaheadIterator} {a : α} (hN : 1 ≤ N) (h : QueueInv N k st)
    (ha : s.pull k = .ok a) :
    ∃ st', AsyncLookaheadIterator.next s N st = (.ok a, st') ∧
      QueueInv N (k + 1) st' := by
  obtain ⟨hp1, hs1⟩ := fill_queue_of_inv h
  refine ⟨AsyncLookaheadIterator.fill_queue N
    ⟨some (List.range' (k + 1) (N - 1)), k + N,
      (AsyncLookaheadIterator.fill_queue N st).log⟩, ?_, ?_⟩
  · simp only [AsyncLookaheadIterator.next, hp1, range'_cons_of_pos hN, ha, hs1]
  · apply inv_fill_queue
    refine ⟨?_, ?_, ?_⟩
    · show some (List.range' (k + 1) (N - 1)) =
        some (List.range' (k + 1) (k + N - (k + 1)))
      congr 2
      omega
    · show k + 1 ≤ k + N
      omega
    · show k + N ≤ (k + 1) + N
      omega

theorem next_stop_of_inv {s : Source α ε} {N k : Nat}
    {st : AsyncLookaheadIterator} (hN : 1 ≤ N) (h : QueueInv N k st)
    (hs : s.pull k = .stop) :
    AsyncLookaheadIterator.next s N st =
      (.stop, ⟨none, k + N, (AsyncLookaheadIterator.fill_queue N st).log⟩) := by
  obtain ⟨hp1, hs1⟩ := fill_queue_of_inv h
  simp only [AsyncLookaheadIterator.next, hp1, range'_cons_of_pos hN, hs, hs1]

theorem next_err_of_inv {s : Source α ε} {N k : Nat}
    {st : AsyncLookaheadIterator} {e : ε} (hN : 1 ≤ N) (h : QueueInv N k st)
    (he : s.pull k = .err e) :
    AsyncLookaheadIterator.next s N st =
      (.err e, ⟨some (List.range' (k + 1) (N - 1)), k + N,
        (AsyncLookaheadIterator.fill_queue N st).log⟩) := by
  obtain ⟨hp1, hs1⟩ := fill_queue_of_inv h
  simp only [AsyncLookaheadIterator.next, hp1, range'_cons_of_pos hN, he, hs1]

theorem inv_init {N : Nat} (warm_start : Bool) :
    QueueInv N 0 (AsyncLookaheadIterator.init N warm_start) := by
  have h0 : QueueInv N 0 (⟨some [], 0, []⟩ : AsyncLookaheadIterator) :=
    ⟨rfl, Nat.le_refl 0, Nat.zero_le _⟩
  cases warm_start with
  | false => simpa [AsyncLookaheadIterator.init] using h0
  | true =>
    simpa [AsyncLookaheadIterator.init] using inv_fill_queue h0

theorem collect_of_inv (s : Source α ε) {N : Nat} (hN : 1 ≤ N) :
    ∀ (fuel k : Nat) (st : AsyncLookaheadIterator), QueueInv N k st →
      k ≤ s.items.length → s.items.length - k < fuel →
      collect s N fuel st = (s.items.drop k, some s.terminalNext)
  | 0, k, _, _, _, hfuel => absurd hfuel (by omega)
  | fuel + 1, k, st, hinv, hk, hfuel => by
    by_cases hlt : k < s.items.length
    · have ha : s.pull k = .ok (s.items.get ⟨k, hlt⟩) := by
        simp [Source.pull, hlt]
      obtain ⟨st', heq, hinv'⟩ := next_ok_of_inv hN hinv ha
      have IH := collect_of_inv s hN fuel (k + 1) st' hinv' (by omega) (by omega)
      simp only [collect, heq, IH]
      rw [List.drop_eq_getElem_cons hlt]
      simp
    · have hk' : k = s.items.length := by omega
      have hdrop : s.items.drop k = [] := by
        simp [hk']
      cases hterm : s.term with
      | none =>
        have hs : s.pull k = .stop := by
          simp [Source.pull, hk', hterm]
        rw [collect, next_stop_of_inv hN hinv hs]
        simp [hdrop, Source.terminalNext, hterm]
      | some e =>
        have he : s.pull k = .err e := by
          simp [Source.pull, hk', hterm]
        rw [collect, next_err_of_inv hN hinv he]
        simp [hdrop, Source.terminalNext, hterm]

theorem log_inv_fill {N : Nat} {st : AsyncLookaheadIterator} (h : LogInv st) :
    LogInv (AsyncLookaheadIterator.fill_queue N st) := by
  rcases hp : st.pending with _ | q
  · simpa [AsyncLookaheadIterator.fill_queue, hp] using h
  · simp only [AsyncLookaheadIterator.fill_queue, hp]
    show st.log ++ List.range' st.submit_count (N - q.length) =
      List.range (st.submit_count + (N - q.length))
    rw [h, List.range_add, List.range'_eq_map_range]

theorem log_inv_next {s : Source α ε} {N : Nat} {st : AsyncLookaheadIterator}
    (h : LogInv st) : LogInv (AsyncLookaheadIterator.next s N st).2 := by
  have h1 : LogInv (AsyncLookaheadIterator.fill_queue N st) := log_inv_fill h
  rcases hp : (AsyncLookaheadIterator.fill_queue N st).pending
    with _ | ⟨_ | ⟨t, rest⟩⟩
  · simp only [AsyncLookaheadIterator.next, hp]
    exact h1
  · simp only [AsyncLookaheadIterator.next, hp]
    exact h1
  · simp only [AsyncLookaheadIterator.next, hp]
    rcases hr : s.pull t with a | _ | e
    · simp only [hr]
      exact log_inv_fill h1
    · simp only [hr]
      exact h1
    · simp only [hr]
      exact h1

theorem log_inv_init {N : Nat} (w : Bool) :
    LogInv (AsyncLookaheadIterator.init N w) := by
  have h0 : LogInv (⟨some [], 0, []⟩ : AsyncLookaheadIterator) := rfl
  cases w with
  | false => exact h0
  | true => exact log_inv_fill h0

theorem reachable_log_inv {s : Source α ε} {N : Nat} {w : Bool}
    {st : AsyncLookaheadIterator} (h : Reachable s N w st) : LogInv st := by
  induction h with
  | start => exact log_inv_init w
  | step _ ih => exact log_inv_next ih

theorem runInOrder_range' (s : Source α ε) :
    ∀ (n rc : Nat), runInOrder s (List.range' rc n) rc = some (rc + n)
  | 0, rc => by simp [runInOrder]
  | n + 1, rc => by
    rw [List.range'_succ]
    simp only [runInOrder, runTask, eq_self_iff_true, if_true]
    rw [runInOrder_range' s n (rc + 1)]
    congr 1
    omega

theorem pendingLen_fill {N : Nat} {st : AsyncLookaheadIterator}
    (h : pendingLen st ≤ N) :
    pendingLen (AsyncLookaheadIterator.fill_queue N st) ≤ N := by
  rcases hp : st.pending with _ | q
  · simpa [AsyncLookaheadIterator.fill_queue, hp] using h
  · simp only [pendingLen, hp] at h
    simp only [AsyncLookaheadIterator.fill_queue, hp, pendingLen,
      List.length_append, List.length_range']
    omega

theorem pendingLen_next {s : Source α ε} {N : Nat}
    {st : AsyncLookaheadIterator} (h : pendingLen st ≤ N) :
    pendingLen (AsyncLookaheadIterator.next s N st).2 ≤ N := by
  have h1 : pendingLen (AsyncLookaheadIterator.fill_queue N st) ≤ N :=
    pendingLen_fill h
  rcases hp : (AsyncLookaheadIterator.fill_queue N st).pending
    with _ | ⟨_ | ⟨t, rest⟩⟩
  · simp only [AsyncLookaheadIterator.next, hp, pendingLen]
    exact Nat.zero_le N
  · simpa only [AsyncLookaheadIterator.next, hp] using h1
  · simp only [pendingLen, hp] at h1
    simp only [AsyncLookaheadIterator.next, hp]
    rcases hr : s.pull t with a | _ | e
    · simp only [hr]
      apply pendingLen_fill
      simp only [pendingLen]
      simp only [List.length_cons] at h1
      omega
    · simp only [hr, pendingLen]
      exact Nat.zero_le N
    · simp only [hr, pendingLen]
      simp only [List.length_cons] at h1
      omega

theorem reachable_pendingLen {s : Source α ε} {N : Nat} {w : Bool}
    {st : AsyncLookaheadIterator} (h : Reachable s N w st) :
    pendingLen st ≤ N := by
  induction h with
  | start =>
    have h0 : pendingLen (⟨some [], 0, []⟩ : AsyncLookaheadIterator) ≤ N :=
      Nat.zero_le N
    cases w with
    | false => exact h0
    | true => exact pendingLen_fill h0
  | step _ ih => exact pendingLen_next ih

theorem pageEmptyByPeek_eq_false {p : List Row} :
    pageEmptyByPeek p = false ↔ ∃ r t, p = r :: t ∧ r ≠ ([] : Row) := by
  cases p with
  | nil => simp [pageEmptyByPeek]
  | cons r t =>
    cases r with
    | nil => simp [pageEmptyByPeek, List.isEmpty]
    | cons a rr => simp [pageEmptyByPeek, List.isEmpty]

theorem qsRun_step_empty {db : Nat → Nat → List Row} {fuel : Nat}
    {s : QueryStreamer} (h : pageEmptyByPeek (db s.offset s.batch_size) = true) :
    qsRun db (fuel + 1) s = ([], some (s.offset, s.batch_size)) := by
  simp only [qsRun, QueryStreamer.next, h, if_true]

theorem qsRun_step_yield {db : Nat → Nat → List Row} {fuel : Nat}
    {s : QueryStreamer}
    (h : pageEmptyByPeek (db s.offset s.batch_size) = false) :
    qsRun db (fuel + 1) s =
      (((s.offset, s.batch_size), db s.offset s.batch_size) ::
          (qsRun db fuel ⟨s.batch_size, s.offset + s.batch_size⟩).1,
        (qsRun db fuel ⟨s.batch_size, s.offset + s.batch_size⟩).2) := by
  simp only [qsRun, QueryStreamer.next, h, Bool.false_eq_true, if_false]

theorem qsRun_paged (pages : List (List Row)) {bs : Nat} (hbs : 0 < bs) :
    ∀ (suffix : List (List Row)) (k : Nat), pages.drop k = suffix →
      (∀ p ∈ suffix, pageEmptyByPeek p = false) →
      qsRun (pagedDb pages bs) (suffix.length + 1) ⟨bs, k * bs⟩ =
        (expectedPages bs k suffix, some ((k + suffix.length) * bs, bs))
  | [], k, hdrop, _ => by
    have hlen : pages.length ≤ k := by
      have := congrArg List.length hdrop
      simp only [List.length_drop, List.length_nil] at this
      omega
    have hdiv : k * bs / bs = k := Nat.mul_div_cancel k hbs
    have hdb : pagedDb pages bs (k * bs) bs = [] := by
      rw [pagedDb, hdiv]
      exact List.getD_eq_default _ _ hlen
    rw [qsRun_step_empty (by dsimp only; rw [hdb]; rfl)]
    simp [expectedPages]
  | p :: rest, k, hdrop, hne => by
    have hk : k < pages.length := by
      have := congrArg List.length hdrop
      simp only [List.length_drop, List.length_cons] at this
      omega
    have hcons := List.drop_eq_getElem_cons hk
    rw [hdrop] at hcons
    injection hcons with h1 h2
    have hdiv : k * bs / bs = k := Nat.mul_div_cancel k hbs
    have hdb : pagedDb pages bs (k * bs) bs = p := by
      rw [pagedDb, hdiv, List.getD_eq_getElem?_getD,
        List.getElem?_eq_getElem hk, Option.getD_some]
      exact h1.symm
    have hpeek : pageEmptyByPeek p = false := hne p (by simp)
    have IH := qsRun_paged pages hbs rest (k + 1) h2.symm
      (fun q hq => hne q (by simp [hq]))
    rw [Nat.succ_mul] at IH
    have harith : (k + 1 + rest.length) * bs = (k + (rest.length + 1)) * bs := by
      congr 1
      omega
    show qsRun (pagedDb pages bs) (rest.length + 1 + 1) ⟨bs, k * bs⟩ = _
    rw [qsRun_step_yield (by dsimp only; rw [hdb]; exact hpeek)]
    dsimp only
    rw [hdb, IH, harith]
    simp [expectedPages]

theorem nextPopped_of_inv {N k : Nat} {st : AsyncLookaheadIterator}
    (hN : 1 ≤ N) (h : QueueInv N k st) : nextPopped N st = some k := by
  obtain ⟨hp, _⟩ := fill_queue_of_inv h
  simp only [nextPopped, hp, range'_cons_of_pos hN, List.head?_cons]

/-!
Claim theorems.
-/

/-- C1: for every finite source sequence and every parallelism `N ≥ 1`,
driving `AsyncLookaheadIterator` to exhaustion (with the executor running
submitted tasks in submission order) yields exactly the same elements in
exactly the same order as iterating the wrapped source directly, followed
by `StopIteration`. -/
theorem c1_lookahead_preserves_order (items : List α) (N : Nat)
    (warm_start : Bool) (hN : 1 ≤ N) :
    collect (Source.mk items (none : Option ε)) N (items.length + 1)
        (AsyncLookaheadIterator.init N warm_start) =
      (syncIterate (Source.mk items (none : Option ε)), some NextResult.stop) := by
  have h := collect_of_inv (Source.mk items (none : Option ε)) hN
    (items.length + 1) 0 _ (inv_init warm_start) (Nat.zero_le _) (by simp)
  simpa [syncIterate, Source.terminalNext] using h

/-- C1 witness: a concrete three-element source with parallelism 2. -/
theorem c1_witness :
    collect (Source.mk [10, 20, 30] (none : Option Unit)) 2 4
        (AsyncLookaheadIterator.init 2 false) =
      (syncIterate (Source.mk [10, 20, 30] (none : Option Unit)),
        some NextResult.stop) :=
  c1_lookahead_preserves_order [10, 20, 30] 2 false (by decide)

/-- C4: between operations, the submission history is exactly
`0, 1, 2, ...`: the `K`-th submitted fetch task carries sequence number
`K`, and replaying the whole history on the in-order executor never trips
the `assert nr == run_count` (`OrderingViolation`) branch. -/
theorem c4_submission_numbers_in_order {s : Source α ε} {N : Nat} {w : Bool}
    {st : AsyncLookaheadIterator} (h : Reachable s N w st) :
    st.log = List.range st.submit_count ∧
      (∀ (K : Nat) (hK : K < st.log.length), st.log.get ⟨K, hK⟩ = K) ∧
      runInOrder s st.log 0 = some st.submit_count := by
  have hlog : st.log = List.range st.submit_count := reachable_log_inv h
  refine ⟨hlog, ?_, ?_⟩
  · intro K hK
    simp [hlog, List.get_eq_getElem, List.getElem_range]
  · rw [hlog, List.range_eq_range']
    simpa using runInOrder_range' s st.submit_count 0

/-- C4 witness: after a warm start with parallelism 2 and one `next` call,
the submission log is `List.range` of the submission counter and the
in-order replay succeeds. -/
theorem c4_witness :
    (AsyncLookaheadIterator.next (Source.mk [5, 6] (none : Option Unit)) 2
          (AsyncLookaheadIterator.init 2 true)).2.log =
        List.range (AsyncLookaheadIterator.next
          (Source.mk [5, 6] (none : Option Unit)) 2
          (AsyncLookaheadIterator.init 2 true)).2.submit_count ∧
      runInOrder (Source.mk [5, 6] (none : Option Unit))
          (AsyncLookaheadIterator.next (Source.mk [5, 6] (none : Option Unit)) 2
            (AsyncLookaheadIterator.init 2 true)).2.log 0 =
        some (AsyncLookaheadIterator.next (Source.mk [5, 6] (none : Option Unit)) 2
          (AsyncLookaheadIterator.init 2 true)).2.submit_count :=
  ⟨(c4_submission_numbers_in_order (Reachable.step Reachable.start)).1,
    (c4_submission_numbers_in_order (Reachable.step Reachable.start)).2.2⟩

/-- C5: at every point between operations (after construction, and after
every `next` call), the pending-task queue holds at most `N` tasks. -/
theorem c5_at_most_parallelism_outstanding {s : Source α ε} {N : Nat}
    {w : Bool} {st : AsyncLookaheadIterator} (h : Reachable s N w st) :
    pendingLen st ≤ N :=
  reachable_pendingLen h

/-- C5 witness: the warm-started iterator with parallelism 3 has at most 3
pending tasks. -/
theorem c5_witness : pendingLen (AsyncLookaheadIterator.init 3 true) ≤ 3 :=
  c5_at_most_parallelism_outstanding
    (s := Source.mk [1] (none : Option Unit)) Reachable.start

/-- C6: for a source that yields its items and then raises a
non-`StopIteration` exception, and any parallelism `N ≥ 1`, the first
`items.length` calls return the items unchanged and the following call
raises exactly that exception. -/
theorem c6_midstream_error_at_failure_point (items : List α) (e : ε)
    (N : Nat) (w : Bool) (hN : 1 ≤ N) :
    collect (Source.mk items (some e)) N (items.length + 1)
        (AsyncLookaheadIterator.init N w) =
      (items, some (NextResult.err e)) := by
  have h := collect_of_inv (Source.mk items (some e)) hN
    (items.length + 1) 0 _ (inv_init w) (Nat.zero_le _) (by simp)
  simpa [Source.terminalNext] using h

/-- C6 witness: the spec's scenario — parallelism 3, the source raises on
its 4th item; three items are pulled successfully, the 4th pull raises. -/
theorem c6_witness :
    collect (Source.mk [7, 8, 9] (some "boom")) 3 4
        (AsyncLookaheadIterator.init 3 true) =
      ([7, 8, 9], some (NextResult.err "boom")) :=
  c6_midstream_error_at_failure_point [7, 8, 9] "boom" 3 true (by decide)

/-- C7: when the awaited task raises a non-`StopIteration` exception,
`next` propagates it unmodified, does not mark the iterator exhausted
(the queue stays a `some`, only the failed task removed), and a subsequent
`next` awaits the next task in submission order. -/
theorem c7_error_leaves_queue_pending {s : Source α ε} {N k : Nat}
    {st : AsyncLookaheadIterator} {e : ε} (hN : 1 ≤ N) (h : QueueInv N k st)
    (he : s.pull k = .err e) :
    (AsyncLookaheadIterator.next s N st).1 = NextResult.err e ∧
      (AsyncLookaheadIterator.next s N st).2.pending =
        some (List.range' (k + 1) (N - 1)) ∧
      (AsyncLookaheadIterator.next s N st).2.pending ≠ none ∧
      nextPopped N (AsyncLookaheadIterator.next s N st).2 = some (k + 1) := by
  have heq := next_err_of_inv hN h he
  have hinv2 : QueueInv N (k + 1) (AsyncLookaheadIterator.next s N st).2 := by
    rw [heq]
    refine ⟨?_, ?_, ?_⟩
    · show some (List.range' (k + 1) (N - 1)) =
        some (List.range' (k + 1) (k + N - (k + 1)))
      congr 2
      omega
    · show k + 1 ≤ k + N
      omega
    · show k + N ≤ k + 1 + N
      omega
  refine ⟨?_, ?_, ?_, nextPopped_of_inv hN hinv2⟩
  · rw [heq]
  · rw [heq]
  · rw [heq]
    simp

/-- C7 witness: a source that raises immediately, parallelism 2: the first
`next` raises the exception, the queue stays pending, and the following
`next` awaits task 1. -/
theorem c7_witness :
    (AsyncLookaheadIterator.next (Source.mk ([] : List Nat) (some "x")) 2
          (AsyncLookaheadIterator.init 2 false)).1 = NextResult.err "x" ∧
      nextPopped 2 (AsyncLookaheadIterator.next
          (Source.mk ([] : List Nat) (some "x")) 2
          (AsyncLookaheadIterator.init 2 false)).2 = some 1 :=
  ⟨(@c7_error_leaves_queue_pending Nat String (Source.mk [] (some "x")) 2 0
      (AsyncLookaheadIterator.init 2 false) "x" (by decide)
      ⟨by decide, by decide, by decide⟩ (by decide)).1,
    (@c7_error_leaves_queue_pending Nat String (Source.mk [] (some "x")) 2 0
      (AsyncLookaheadIterator.init 2 false) "x" (by decide)
      ⟨by decide, by decide, by decide⟩ (by decide)).2.2.2⟩

/-- C10: once `next` has raised `StopIteration` (setting the queue to
`None`), every subsequent `next` raises `AttributeError` from
`None.popleft()` — not `StopIteration` again. -/
theorem c10_attr_error_after_exhaustion (s : Source α ε) (N : Nat)
    (st : AsyncLookaheadIterator)
    (h : (AsyncLookaheadIterator.next s N st).1 = NextResult.stop) :
    (AsyncLookaheadIterator.next s N
        (AsyncLookaheadIterator.next s N st).2).1 = NextResult.attrError ∧
      (AsyncLookaheadIterator.next s N
        (AsyncLookaheadIterator.next s N st).2).1 ≠ NextResult.stop := by
  have hnone : (AsyncLookaheadIterator.next s N st).2.pending = none := by
    rcases hp : (AsyncLookaheadIterator.fill_queue N st).pending
      with _ | ⟨_ | ⟨t, rest⟩⟩
    · simp only [AsyncLookaheadIterator.next, hp] at h
      simp at h
    · simp only [AsyncLookaheadIterator.next, hp] at h
      simp at h
    · rcases hr : s.pull t with a | _ | e
      · simp only [AsyncLookaheadIterator.next, hp, hr] at h
        simp at h
      · simp [AsyncLookaheadIterator.next, hp, hr]
      · simp only [AsyncLookaheadIterator.next, hp, hr] at h
        simp at h
  constructor
  · generalize hX : (AsyncLookaheadIterator.next s N st).2 = X at hnone ⊢
    simp only [AsyncLookaheadIterator.next, AsyncLookaheadIterator.fill_queue,
      hnone]
  · generalize hX : (AsyncLookaheadIterator.next s N st).2 = X at hnone ⊢
    simp only [AsyncLookaheadIterator.next, AsyncLookaheadIterator.fill_queue,
      hnone]
    simp

/-- C10 witness: an empty source with parallelism 1: the first `next`
raises `StopIteration`, the second the `AttributeError`. -/
theorem c10_witness :
    (AsyncLookaheadIterator.next (Source.mk ([] : List Nat) (none : Option Unit)) 1
        (AsyncLookaheadIterator.next (Source.mk ([] : List Nat) (none : Option Unit)) 1
          (AsyncLookaheadIterator.init 1 false)).2).1 = NextResult.attrError :=
  (c10_attr_error_after_exhaustion (Source.mk ([] : List Nat) (none : Option Unit))
    1 (AsyncLookaheadIterator.init 1 false) (by decide)).1

/-- C2 counterexample: the claim as stated fails.  Take `batch_size = 1`
and a single page `[{}]`: it has one row (so it is not the terminating
empty page), but `not points.peek(None)` tests the truthiness of the first
row, and the empty mapping `{}` is falsy — the streamer terminates at once
and yields no page, where the claim requires the 0th call to yield it. -/
theorem c2_counterexample :
    (∀ p ∈ [[([] : Row)]], p ≠ []) ∧
      qsRun (pagedDb [[([] : Row)]] 1) 2 ⟨1, 0⟩ = ([], some (0, 1)) ∧
      expectedPages 1 0 [[([] : Row)]] ≠ [] := by
  refine ⟨by decide, by decide, by decide⟩

/-- C2 (amended): for every source modelled as a sequence of pages in which
every page has at least one row *whose first row is truthy (a non-empty
mapping)*, terminated by an empty page, and every `batch_size > 0`: the
`K`-th call issues exactly one query with `offset = K * batch_size` and
`limit = batch_size` and yields the `K`-th page, and the stream raises
`StopIteration` on the first call whose page is empty — no empty page is
yielded and no extra trailing page is produced. -/
theorem c2_query_streamer_paginates (pages : List (List Row)) (bs : Nat)
    (hbs : 0 < bs)
    (hne : ∀ p ∈ pages, ∃ r t, p = r :: t ∧ r ≠ ([] : Row)) :
    qsRun (pagedDb pages bs) (pages.length + 1) ⟨bs, 0⟩ =
      (expectedPages bs 0 pages, some (pages.length * bs, bs)) := by
  have h := qsRun_paged pages hbs pages 0 (by simp)
    (fun p hp => pageEmptyByPeek_eq_false.mpr (hne p hp))
  simpa using h

/-- C2 witness: two one-row pages with `batch_size = 2`. -/
theorem c2_witness :
    qsRun (pagedDb [[[("f", "1")]], [[("f", "2")]]] 2) 3 ⟨2, 0⟩ =
      (expectedPages 2 0 [[[("f", "1")]], [[("f", "2")]]], some (4, 2)) :=
  c2_query_streamer_paginates [[[("f", "1")]], [[("f", "2")]]] 2 (by decide)
    (by
      intro p hp
      simp only [List.mem_cons, List.not_mem_nil, or_false] at hp
      rcases hp with rfl | rfl
      · exact ⟨_, _, rfl, by decide⟩
      · exact ⟨_, _, rfl, by decide⟩)

/-- C3 counterexample: the claim as stated fails when exactly one filter is
non-empty: `join_selectors` still wraps the surviving filter in
parentheses (`selectors[0]` is the already-formatted element), so the
caller filter `abc` combined with an empty partition filter gives
`"(abc)"`, not `"abc"` unmodified. -/
theorem c3_counterexample :
    join_selectors ["abc", ""] = "(abc)" ∧ "(abc)" ≠ "abc" := by
  refine ⟨by decide, by decide⟩

/-- C3 (amended): the WHERE clause `stream_measurement` hands to
`stream_params` is `join_selectors [callerFilter, partitionFilter]`, which
combines them as follows: both non-empty gives
`"(callerFilter) AND (partitionFilter)"`; exactly one non-empty gives that
one *wrapped in parentheses*; both empty gives the empty (unrestricted)
filter. -/
theorem c3_filter_combination (c p : String) :
    (c ≠ "" → p ≠ "" →
      join_selectors [c, p] = "(" ++ c ++ ")" ++ " AND " ++ ("(" ++ p ++ ")")) ∧
      (c ≠ "" → p = "" → join_selectors [c, p] = "(" ++ c ++ ")") ∧
      (c = "" → p ≠ "" → join_selectors [c, p] = "(" ++ p ++ ")") ∧
      (c = "" → p = "" → join_selectors [c, p] = "") ∧
      (∀ (dbSeries : String → List String) (m : String),
        stream_measurement dbSeries m c =
          (list_series dbSeries m).map
            (fun x => (x.1, x.2, join_selectors [c, x.2]))) := by
  refine ⟨?_, ?_, ?_, ?_, fun dbSeries m => rfl⟩
  · intro hc hp
    simp [join_selectors, List.filter_cons, hc, hp, pyJoin]
  · intro hc hp
    simp [join_selectors, List.filter_cons, hc, hp, pyJoin]
  · intro hc hp
    simp [join_selectors, List.filter_cons, hc, hp, pyJoin]
  · intro hc hp
    simp [join_selectors, List.filter_cons, hc, hp, pyJoin]

/-- C3 witness: both filters non-empty. -/
theorem c3_witness :
    join_selectors ["a", "b"] = "(" ++ "a" ++ ")" ++ " AND " ++ ("(" ++ "b" ++ ")") :=
  (c3_filter_combination "a" "b").1 (by decide) (by decide)

/-- C8: over the same five-row source with `batch_size = 2`,
`stream_query` with `batched = true` yields the pages
`[[A,B], [C,D], [E]]`, with `batched = false` the flat rows
`[A, B, C, D, E]`, and the flat sequence is exactly the concatenation of
the pages' rows, each page exhausted before the next begins. -/
theorem c8_batched_vs_flattened :
    stream_query (limitOffsetDb rowsABCDE) 2 4 true =
        Sum.inl [[[("v", "A")], [("v", "B")]], [[("v", "C")], [("v", "D")]],
          [[("v", "E")]]] ∧
      stream_query (limitOffsetDb rowsABCDE) 2 4 false =
        Sum.inr [[("v", "A")], [("v", "B")], [("v", "C")], [("v", "D")],
          [("v", "E")]] ∧
      ([[[("v", "A")], [("v", "B")]], [[("v", "C")], [("v", "D")]],
          [[("v", "E")]]] : List (List Row)).flatten =
        [[("v", "A")], [("v", "B")], [("v", "C")], [("v", "D")], [("v", "E")]] := by
  refine ⟨by decide, by decide, by decide⟩

/-- C9: a measurement whose series-discovery query returns zero series
gives an empty sequence from `list_series` and from `stream_measurement`
rather than an error; both are pure functions of the discovery result
(the source methods mutate no client state), so a second call returns the
empty sequence again. -/
theorem c9_zero_series_empty (dbSeries : String → List String) (m w : String)
    (h : dbSeries m = []) :
    list_series dbSeries m = [] ∧ stream_measurement dbSeries m w = [] := by
  constructor
  · simp [list_series, h]
  · simp [stream_measurement, list_series, h]

/-- C9 witness: a discovery capability with no series. -/
theorem c9_witness :
    list_series (fun _ => []) "m" = [] ∧
      stream_measurement (fun _ => []) "m" "w" = [] :=
  c9_zero_series_empty (fun _ => []) "m" "w" rfl
